import Mathlib

set_option maxHeartbeats 1000000

namespace Redex

/-!
Verification development for the redex peephole rewrite core and its
configuration accessors.

The peephole engine (`PeepholeV2`) is exercised by `test/integ/PeepholeTest.cpp`;
its implementation file is not among the sources at hand, so the engine below
is modelled from the specification (pattern/rule table, single left-to-right
pass, encodability gating), with the observable behaviour pinned by the
expected instruction streams asserted in `PeepholeTest.cpp`: those expected
outputs show the preceding `const/16` instruction is retained by every
arithmetic rewrite, so each rule's pattern spans just the one
literal-arithmetic instruction.  The configuration accessors are translated
from `libredex/ConfigFiles.cpp`.
-/

/-- Opcodes appearing in the peephole arithmetic rules and their tests
(`PeepholeTest.cpp`).  Named after the `DexOpcode` enumerators used there. -/
inductive DexOpcode where
  | CONST_16
  | MOVE_16
  | NEG_INT
  | ADD_INT_LIT8
  | ADD_INT_LIT16
  | MUL_INT_LIT8
  | MUL_INT_LIT16
  | DIV_INT_LIT8
  | DIV_INT_LIT16
deriving DecidableEq

/-- One instruction: opcode, optional destination register, ordered source
registers, optional literal.  Structural equality mirrors
`DexInstructionList::instructions_equal` in `PeepholeTest.cpp` (opcode,
literal presence and value, sources, destination). -/
structure Instr where
  opcode : DexOpcode
  dest : Option Nat
  srcs : List Nat
  literal : Option Int
deriving DecidableEq

/-- `const/16 vR, #L` as built by `dasm(OPCODE_CONST_16, {0_v, 42_L})`. -/
def const16 (r : Nat) (l : Int) : Instr := ⟨.CONST_16, some r, [], some l⟩

/-- A literal-arithmetic instruction `op vD, vS, #L` as built by `op_lit`
in `PeepholeTest.cpp`. -/
def opLit (op : DexOpcode) (d s : Nat) (l : Int) : Instr := ⟨op, some d, [s], some l⟩

/-- `move/16 vD, vS` as built by `op_unary(OPCODE_MOVE_16)`. -/
def move16 (d s : Nat) : Instr := ⟨.MOVE_16, some d, [s], none⟩

/-- `neg-int vD, vS` as built by `op_unary(OPCODE_NEG_INT)`. -/
def negInt (d s : Nat) : Instr := ⟨.NEG_INT, some d, [s], none⟩

/-- Modelled from the spec: the per-opcode encoding forms ("format class"),
each form listing, per register slot (destination first, then sources), the
number of bits available for a register index.  `neg-int` (format 12x) has a
single 4-bit/4-bit form — the fact the "far register" boundary test relies on;
`move/16` (format 32x) has 16-bit slots. -/
def opForms : DexOpcode → List (List Nat)
  | .CONST_16 => [[8]]
  | .MOVE_16 => [[16, 16]]
  | .NEG_INT => [[4, 4]]
  | .ADD_INT_LIT8 => [[8, 8]]
  | .ADD_INT_LIT16 => [[4, 4]]
  | .MUL_INT_LIT8 => [[8, 8]]
  | .MUL_INT_LIT16 => [[4, 4]]
  | .DIV_INT_LIT8 => [[8, 8]]
  | .DIV_INT_LIT16 => [[4, 4]]

/-- Does one encoding form (a list of per-slot bit budgets) accommodate the
given register values? -/
def formFits (budgets : List Nat) (regs : List Nat) : Bool :=
  budgets.length == regs.length &&
    (List.zip regs budgets).all fun p => decide (p.1 < 2 ^ p.2)

/-- The register operands of an instruction, destination first. -/
def Instr.regs (i : Instr) : List Nat := i.dest.toList ++ i.srcs

/-- Modelled from the spec: the Encodability Oracle — some form of the opcode
accommodates the registers. -/
def encodable (op : DexOpcode) (regs : List Nat) : Bool :=
  (opForms op).any fun f => formFits f regs

/-- Encodability of a whole instruction. -/
def encodableInstr (i : Instr) : Bool := encodable i.opcode i.regs

/-- Modelled from the spec: a rewrite rule — a pattern spanning `patLen`
instructions and a partial function from the matched window to the
instantiated template (`none` when the shapes, side-conditions or template
encodability fail). -/
structure Rule where
  patLen : Nat
  matchPat : List Instr → Option (List Instr)

/-- Modelled from the spec: try each rule of the table, in table order, at the
head of the stream; the first rule whose window fits and whose pattern applies
wins, yielding the consumed length and the replacement. -/
def tryRulesAt : List Rule → List Instr → Option (Nat × List Instr)
  | [], _ => none
  | r :: rs, s =>
    if r.patLen ≤ s.length then
      match r.matchPat (s.take r.patLen) with
      | some repl => some (r.patLen, repl)
      | none => tryRulesAt rs s
    else
      tryRulesAt rs s

/-- Modelled from the spec: the single left-to-right pass, with explicit fuel
(one unit per loop iteration).  On a match the window is consumed and
scanning resumes after the inserted replacement (replacements are not
re-scanned); otherwise the scan advances by one instruction.  `none` means
the fuel was exhausted. -/
def rewriteLoop (rules : List Rule) : Nat → List Instr → Option (List Instr)
  | _, [] => some []
  | 0, _ :: _ => none
  | fuel + 1, i :: rest =>
    match tryRulesAt rules (i :: rest) with
    | some (k, repl) => (rewriteLoop rules fuel (List.drop k (i :: rest))).map (repl ++ ·)
    | none => (rewriteLoop rules fuel rest).map (i :: ·)

/-- The rewrite pass: run the loop with fuel equal to the stream length
(shown sufficient below). -/
def rewrite (rules : List Rule) (s : List Instr) : List Instr :=
  (rewriteLoop rules s.length s).getD s

/-- Is the opcode a literal-add (8- or 16-bit literal variant)? -/
def isAddLit : DexOpcode → Bool
  | .ADD_INT_LIT8 | .ADD_INT_LIT16 => true
  | _ => false

/-- Is the opcode a literal-multiply (8- or 16-bit literal variant)? -/
def isMulLit : DexOpcode → Bool
  | .MUL_INT_LIT8 | .MUL_INT_LIT16 => true
  | _ => false

/-- Is the opcode a literal-divide (8- or 16-bit literal variant)? -/
def isDivLit : DexOpcode → Bool
  | .DIV_INT_LIT8 | .DIV_INT_LIT16 => true
  | _ => false

/-- Modelled from the spec: one arithmetic identity rule.  The pattern spans
the single literal-arithmetic instruction (the `PeepholeTest` expected outputs
show the preceding `const/16` is retained, so it is not part of the window):
it matches `op vD, vS, #lit` when `pred op` holds, the literal equals `lit`,
and the template instruction `mk d s` is encodable in some form of its
opcode. -/
def arithRule (pred : DexOpcode → Bool) (lit : Int) (mk : Nat → Nat → Instr) : Rule where
  patLen := 1
  matchPat := fun w =>
    match w with
    | [i] =>
      match i.dest, i.srcs, i.literal with
      | some d, [s], some l =>
        if pred i.opcode && (l == lit) && encodableInstr (mk d s) then
          some [mk d s]
        else
          none
      | _, _, _ => none
    | _ => none

/-- The rule table of the four arithmetic identities (§4.3 rules 1–4):
add 0 → move, mul 1 → move, mul −1 → neg, div −1 → neg. -/
def arithRules : List Rule :=
  [arithRule isAddLit 0 move16,
   arithRule isMulLit 1 move16,
   arithRule isMulLit (-1) negInt,
   arithRule isDivLit (-1) negInt]

/-- The combined effect of trying the four arithmetic rules on one
instruction. -/
def tryArith (i : Instr) : Option Instr :=
  match i.dest, i.srcs, i.literal with
  | some d, [s], some l =>
    if isAddLit i.opcode && (l == 0) && encodableInstr (move16 d s) then some (move16 d s)
    else if isMulLit i.opcode && (l == 1) && encodableInstr (move16 d s) then some (move16 d s)
    else if isMulLit i.opcode && (l == -1) && encodableInstr (negInt d s) then some (negInt d s)
    else if isDivLit i.opcode && (l == -1) && encodableInstr (negInt d s) then some (negInt d s)
    else none
  | _, _, _ => none

/-- What the pass does to one instruction under `arithRules`. -/
def stepArith (i : Instr) : Instr := (tryArith i).getD i

/-- Every rule of the table spans at least one instruction. -/
def WellFormedTable (rules : List Rule) : Bool :=
  rules.all fun r => decide (1 ≤ r.patLen)

/-!
Configuration model, translated from `libredex/ConfigFiles.cpp`.

A `Json::Value` is modelled without floating-point numbers (none of the
claims concern reals).  The `unordered_set`/`unordered_map` outputs are
modelled as the list of inserted elements, in insertion order; an `obj`
carries its members as an association list.
-/

/-- A JSON value as handled by the configuration accessors. -/
inductive Json where
  | null
  | bool (b : Bool)
  | int (n : Int)
  | str (s : String)
  | arr (elems : List Json)
  | obj (members : List (String × Json))

/-- The `it == Json::nullValue` test used by the container getters. -/
def Json.isNull : Json → Bool
  | .null => true
  | _ => false

/-- `Json::Value::operator[](const char*) const`: the member, or null when the
key is absent or the receiver is not an object. -/
def Json.member : Json → String → Json
  | .obj kvs, name => (kvs.lookup name).getD .null
  | _, _ => .null

/-- `Json::Value::get(key, default)`: the member when present, else the
supplied default. -/
def Json.getMem (j : Json) (name : String) (dflt : Json) : Json :=
  match j with
  | .obj kvs => (kvs.lookup name).getD dflt
  | _ => dflt

/-- `Json::Value::asInt`: null and booleans convert, other non-integers
throw. -/
def Json.asInt : Json → Except String Int
  | .null => .ok 0
  | .int n => .ok n
  | .bool b => .ok (if b then 1 else 0)
  | _ => .error "Value is not convertible to Int."

/-- `Json::Value::asUInt`: like `asInt` but negatives throw. -/
def Json.asUInt : Json → Except String Nat
  | .null => .ok 0
  | .int n => if 0 ≤ n then .ok n.toNat else .error "Value is not convertible to UInt."
  | .bool b => .ok (if b then 1 else 0)
  | _ => .error "Value is not convertible to UInt."

/-- `Json::Value::asString`: null gives the empty string; booleans and
integers render; containers throw. -/
def Json.asString : Json → Except String String
  | .null => .ok ""
  | .str s => .ok s
  | .bool b => .ok (if b then "true" else "false")
  | .int n => .ok (toString n)
  | _ => .error "Type is not convertible to string"

/-- Range-based `for` over a `Json::Value`: the elements of an array, the
member values of an object, nothing otherwise. -/
def Json.elements : Json → List Json
  | .arr xs => xs
  | .obj kvs => kvs.map Prod.snd
  | _ => []

/-- Character-wise ASCII lowercasing, as the `::tolower` loop in
`JsonWrapper::get(bool)`. -/
def strToLower (s : String) : String := ⟨s.data.map Char.toLower⟩

/-- Left-to-right effectful traversal, stopping at the first failure — the
shape of every conversion loop in `ConfigFiles.cpp`. -/
def exList {α β : Type} (f : α → Except String β) : List α → Except String (List β)
  | [] => .ok []
  | a :: as => match f a with
    | .error e => .error e
    | .ok b => (exList f as).map fun bs => b :: bs

/-- The conversion step of `JsonWrapper::get(const char*, bool, bool&)`:
booleans pass through; integers 0/1 convert; strings are lowercased and
matched against the fixed token sets; everything else throws. -/
def convertBool : Json → Except String Bool
  | .bool b => .ok b
  | .int n =>
    if n == 0 || n == 1 then .ok (n != 0)
    else .error "Cannot convert JSON value to bool"
  | .str s =>
    let t := strToLower s
    if t == "0" || t == "false" || t == "off" || t == "no" then .ok false
    else if t == "1" || t == "true" || t == "on" || t == "yes" then .ok true
    else .error "Cannot convert JSON value to bool"
  | _ => .error "Cannot convert JSON value to bool"

/-- `JsonWrapper::get(const char*, bool, bool&)`. -/
def getBool (j : Json) (name : String) (dflt : Bool) : Except String Bool :=
  convertBool (j.getMem name (.bool dflt))

/-- `JsonWrapper::get(const char*, int64_t, int64_t&)`. -/
def getInt64 (j : Json) (name : String) (dflt : Int) : Except String Int :=
  (j.getMem name (.int dflt)).asInt

/-- `JsonWrapper::get(const char*, size_t, size_t&)`. -/
def getSizeT (j : Json) (name : String) (dflt : Nat) : Except String Nat :=
  (j.getMem name (.int dflt)).asUInt

/-- `JsonWrapper::get(const char*, const std::string&, std::string&)`. -/
def getString (j : Json) (name : String) (dflt : String) : Except String String :=
  (j.getMem name (.str dflt)).asString

/-- The element loop shared by the vector and set getters: each iterated
value is converted with `asString`. -/
def convStrIter (v : Json) : Except String (List String) :=
  exList Json.asString v.elements

/-- `JsonWrapper::get(..., std::vector<std::string>&)`: a null (or absent)
member yields the default, otherwise the iterated `asString` conversions. -/
def getStrVec (j : Json) (name : String) (dflt : List String) :
    Except String (List String) :=
  let it := j.member name
  if it.isNull then .ok dflt else convStrIter it

/-- `JsonWrapper::get(..., std::unordered_set<std::string>&)`: same fetch and
conversion as the vector getter; the set is modelled as the list of inserted
elements. -/
def getStrSet (j : Json) (name : String) (dflt : List String) :
    Except String (List String) :=
  let it := j.member name
  if it.isNull then .ok dflt else convStrIter it

/-- The inner loop of the map getter: the value must be an array whose
elements are all strings. -/
def convStrList : Json → Except String (List String)
  | .arr xs => exList (fun e => match e with
      | .str s => .ok s
      | _ => .error "Cannot convert JSON value to string") xs
  | _ => .error "Cannot convert JSON value to array"

/-- The object traversal of the map getter: the member must be an object and
every value an array of strings. -/
def convStrMap : Json → Except String (List (String × List String))
  | .obj kvs => exList (fun kv => (convStrList kv.2).map fun l => (kv.1, l)) kvs
  | _ => .error "Cannot convert JSON value to object"

/-- `JsonWrapper::get(..., std::unordered_map<std::string, std::vector<std::string>>&)`. -/
def getStrMap (j : Json) (name : String) (dflt : List (String × List String)) :
    Except String (List (String × List String)) :=
  let cfg := j.member name
  if cfg.isNull then .ok dflt else convStrMap cfg

/-- The `no_optimizations_annotations` loop of the `ConfigFiles` constructor:
each configured name is read with `asString` and resolved through the type
interner (`DexType::get_type`, modelled as the abstract partial map
`getType`); only resolved names are inserted. -/
def noOptAnnos (getType : String → Option Nat) (config : Json) :
    Except String (List Nat) :=
  let anno := config.member "no_optimizations_annotations"
  if anno.isNull then .ok []
  else (exList Json.asString anno.elements).map fun names => names.filterMap getType

/-- One loop iteration of `ConfigFiles::load_coldstart_classes`: the
`always_assert_log` that the entry is at least as long as the `.class` tail
(modelled as an error), then the unconditional replacement of the last six
characters by a semicolon, the `L` prefix, and the proguard-map
translation. -/
def processColdstartEntry (translate : String → String) (clzname : String) :
    Except String String :=
  if clzname.length < 6 then .error "Bailing, invalid class spec"
  else .ok (translate ("L" ++ (String.mk (clzname.data.take (clzname.length - 6)) ++ ";")))

/-- `ConfigFiles::load_coldstart_classes`: `none` models an unopenable list
file (the early return of an empty vector); otherwise the
whitespace-delimited entries are processed in order. -/
def load_coldstart_classes (translate : String → String) (input : Option (List String)) :
    Except String (List String) :=
  match input with
  | none => .ok []
  | some words => exList (processColdstartEntry translate) words

/-- A type interner resolving exactly the name `LA;` (to type id 7), for the
concrete denylist instance. -/
def gResolve : String → Option Nat := fun s => if s = "LA;" then some 7 else none

/-- A configuration listing two annotation names, only the first of which
`gResolve` resolves. -/
def cfgAnnos : Json :=
  Json.obj [("no_optimizations_annotations", Json.arr [Json.str "LA;", Json.str "LB;"])]

/-! Helper lemmas about the engine. -/

theorem tryRulesAt_arith (i : Instr) (s : List Instr) :
    tryRulesAt arithRules (i :: s) = (tryArith i).map fun r => (1, [r]) := by
  obtain ⟨op, dest, srcs, lit⟩ := i
  match dest, srcs, lit with
  | none, _, _ =>
    cases srcs <;>
      simp [tryRulesAt, arithRules, arithRule, tryArith, List.take]
  | some d, [], _ =>
    simp [tryRulesAt, arithRules, arithRule, tryArith, List.take]
  | some d, a :: b :: t, _ =>
    simp [tryRulesAt, arithRules, arithRule, tryArith, List.take]
  | some d, [a], none =>
    simp [tryRulesAt, arithRules, arithRule, tryArith, List.take]
  | some d, [a], some l =>
    simp only [tryRulesAt, arithRules, arithRule, tryArith, List.take,
      List.length_cons, Nat.le_add_left, if_true, Nat.succ_le_succ, Nat.zero_le,
      List.take_succ_cons, List.take_zero]
    split_ifs <;> simp_all

theorem rewriteLoop_arith (fuel : Nat) (s : List Instr) (h : s.length ≤ fuel) :
    rewriteLoop arithRules fuel s = some (s.map stepArith) := by
  induction fuel generalizing s with
  | zero =>
    cases s with
    | nil => simp [rewriteLoop]
    | cons i t => simp at h
  | succ n ih =>
    cases s with
    | nil => simp [rewriteLoop]
    | cons i t =>
      have ht : t.length ≤ n := Nat.le_of_succ_le_succ (by simpa using h)
      rw [rewriteLoop, tryRulesAt_arith]
      cases hti : tryArith i with
      | none =>
        show (rewriteLoop arithRules n t).map (i :: ·) = _
        rw [ih t ht]
        simp [stepArith, hti]
      | some r =>
        show (rewriteLoop arithRules n (List.drop 1 (i :: t))).map ([r] ++ ·) = _
        rw [show List.drop 1 (i :: t) = t from rfl, ih t ht]
        simp [stepArith, hti]

theorem rewrite_arith_eq_map (s : List Instr) :
    rewrite arithRules s = s.map stepArith := by
  simp [rewrite, rewriteLoop_arith s.length s le_rfl]

theorem tryArith_output (i r : Instr) (h : tryArith i = some r) :
    ∃ d s, r = move16 d s ∨ r = negInt d s := by
  obtain ⟨op, dest, srcs, lit⟩ := i
  match dest, srcs, lit with
  | none, _, _ => simp [tryArith] at h
  | some d, [], _ => simp [tryArith] at h
  | some d, a :: b :: t, _ => simp [tryArith] at h
  | some d, [a], none => simp [tryArith] at h
  | some d, [a], some l =>
    simp only [tryArith] at h
    split_ifs at h <;> simp_all <;> exact ⟨d, a, by simp [h.symm]⟩

theorem tryArith_move16 (d s : Nat) : tryArith (move16 d s) = none := rfl

theorem tryArith_negInt (d s : Nat) : tryArith (negInt d s) = none := rfl

theorem stepArith_idem (i : Instr) : stepArith (stepArith i) = stepArith i := by
  cases hti : tryArith i with
  | none => simp [stepArith, hti]
  | some r =>
    obtain ⟨d, s, hr | hr⟩ := tryArith_output i r hti <;>
      simp [stepArith, hti, hr, tryArith_move16, tryArith_negInt]

theorem tryRulesAt_window (rules : List Rule) (s : List Instr) (k : Nat) (repl : List Instr)
    (h : tryRulesAt rules s = some (k, repl)) :
    k ≤ s.length ∧ ∃ r ∈ rules, r.patLen = k := by
  induction rules with
  | nil => simp [tryRulesAt] at h
  | cons r rs ih =>
    rw [tryRulesAt] at h
    by_cases hk : r.patLen ≤ s.length
    · rw [if_pos hk] at h
      cases hm : r.matchPat (s.take r.patLen) with
      | none =>
        rw [hm] at h
        obtain ⟨hle, r', hr', hpl⟩ := ih h
        exact ⟨hle, r', List.mem_cons_of_mem _ hr', hpl⟩
      | some repl2 =>
        rw [hm] at h
        have hk1 : r.patLen = k := congrArg Prod.fst (Option.some.inj h)
        exact ⟨hk1 ▸ hk, r, List.mem_cons_self .., hk1⟩
    · rw [if_neg hk] at h
      obtain ⟨hle, r', hr', hpl⟩ := ih h
      exact ⟨hle, r', List.mem_cons_of_mem _ hr', hpl⟩

theorem rewriteLoop_total (rules : List Rule) (hwf : WellFormedTable rules = true) :
    ∀ (fuel : Nat) (s : List Instr), s.length ≤ fuel →
      (rewriteLoop rules fuel s).isSome = true := by
  intro fuel
  induction fuel with
  | zero =>
    intro s hs
    cases s with
    | nil => simp [rewriteLoop]
    | cons i t => simp at hs
  | succ n ih =>
    intro s hs
    cases s with
    | nil => simp [rewriteLoop]
    | cons i t =>
      rw [rewriteLoop]
      cases hm : tryRulesAt rules (i :: t) with
      | none =>
        have := ih t (Nat.le_of_succ_le_succ (by simpa using hs))
        simpa using this
      | some kr =>
        obtain ⟨k, repl⟩ := kr
        obtain ⟨hle, r, hr, hpl⟩ := tryRulesAt_window rules (i :: t) k repl hm
        have hk1 : 1 ≤ k := by
          have := List.all_eq_true.mp hwf r hr
          simpa [hpl] using this
        have hdrop : (List.drop k (i :: t)).length ≤ n := by
          have hsub : (i :: t).length - k ≤ n := by
            have hlen : (i :: t).length ≤ n + 1 := hs
            omega
          simpa using hsub
        have := ih _ hdrop
        simpa using this

/-! Helper lemmas about the configuration model. -/

theorem json_isNull_false (v : Json) (h : v ≠ Json.null) : v.isNull = false := by
  cases v <;> simp_all [Json.isNull]

theorem exList_error {α β : Type} (f : α → Except String β) (l : List α) (a : α)
    (ha : a ∈ l) (e : String) (he : f a = .error e) :
    ∃ e2, exList f l = .error e2 := by
  induction l with
  | nil => simp at ha
  | cons x xs ih =>
    rcases List.mem_cons.mp ha with rfl | ha2
    · exact ⟨e, by simp [exList, he]⟩
    · cases hfx : f x with
      | error e3 => exact ⟨e3, by simp [exList, hfx]⟩
      | ok b =>
        obtain ⟨e2, h2⟩ := ih ha2
        exact ⟨e2, by simp [exList, hfx, h2, Except.map]⟩

theorem exList_ok {α β : Type} (f : α → Except String β) (g : α → β) (l : List α)
    (h : ∀ a ∈ l, f a = .ok (g a)) :
    exList f l = .ok (l.map g) := by
  induction l with
  | nil => rfl
  | cons x xs ih =>
    simp [exList, h x (List.mem_cons_self ..),
      ih (fun a ha => h a (List.mem_cons_of_mem _ ha)), Except.map]

theorem exList_asString_strs (names : List String) :
    exList Json.asString (names.map Json.str) = .ok names := by
  induction names with
  | nil => rfl
  | cons n ns ih => simp [exList, Json.asString, ih, Except.map]

/-! The claims. -/

/-- C1: a stream `[const/16 v0, #c; op vRd, v0, #L]` where the op is the 8- or
16-bit-literal add with `L = 0`, or the 8- or 16-bit-literal multiply with
`L = 1`, and `Rd ≠ 0`, has its arithmetic instruction rewritten to exactly
`move/16 vRd, v0` (the `const/16` is retained, per the expected outputs of
`PeepholeTest.Arithmetic`).  `Rd < 2^16` is the register-file bound of the
`move/16` encoding form. -/
theorem addZero_mulOne_to_move (rd : Nat) (c : Int) (hne : rd ≠ 0) (hfit : rd < 65536) :
    rewrite arithRules [const16 0 c, opLit .ADD_INT_LIT8 rd 0 0] = [const16 0 c, move16 rd 0] ∧
    rewrite arithRules [const16 0 c, opLit .ADD_INT_LIT16 rd 0 0] = [const16 0 c, move16 rd 0] ∧
    rewrite arithRules [const16 0 c, opLit .MUL_INT_LIT8 rd 0 1] = [const16 0 c, move16 rd 0] ∧
    rewrite arithRules [const16 0 c, opLit .MUL_INT_LIT16 rd 0 1] = [const16 0 c, move16 rd 0] := by
  refine ⟨?_, ?_, ?_, ?_⟩ <;>
  · rw [rewrite_arith_eq_map]
    simp [stepArith, tryArith, const16, opLit, move16, negInt,
      isAddLit, isMulLit, isDivLit, encodableInstr, encodable, opForms, formFits,
      Instr.regs, hfit]

/-- C1 witness: the `add16_0_to_move` test vector, at `Rd = 1`, `c = 42`. -/
theorem addZero_mulOne_to_move_check :
    rewrite arithRules [const16 0 42, opLit .ADD_INT_LIT16 1 0 0] = [const16 0 42, move16 1 0] :=
  (addZero_mulOne_to_move 1 42 (by decide) (by decide)).2.1

/-- C2: multiply and divide by literal −1 (both literal widths) rewrite to
`neg-int vRd, v0` when both registers fit the 4-bit form of `neg-int`
(`Rd < 16`; the source is register 0, which always fits); when `Rd` does not
fit (`16 ≤ Rd`, e.g. `Rd = 17`), the stream is returned unchanged. -/
theorem mulDivNeg1_to_neg (rd : Nat) (c : Int) (hne : rd ≠ 0) :
    (rd < 16 →
      (rewrite arithRules [const16 0 c, opLit .MUL_INT_LIT8 rd 0 (-1)] = [const16 0 c, negInt rd 0] ∧
       rewrite arithRules [const16 0 c, opLit .MUL_INT_LIT16 rd 0 (-1)] = [const16 0 c, negInt rd 0] ∧
       rewrite arithRules [const16 0 c, opLit .DIV_INT_LIT8 rd 0 (-1)] = [const16 0 c, negInt rd 0] ∧
       rewrite arithRules [const16 0 c, opLit .DIV_INT_LIT16 rd 0 (-1)] = [const16 0 c, negInt rd 0])) ∧
    (16 ≤ rd →
      (rewrite arithRules [const16 0 c, opLit .MUL_INT_LIT8 rd 0 (-1)] =
         [const16 0 c, opLit .MUL_INT_LIT8 rd 0 (-1)] ∧
       rewrite arithRules [const16 0 c, opLit .MUL_INT_LIT16 rd 0 (-1)] =
         [const16 0 c, opLit .MUL_INT_LIT16 rd 0 (-1)] ∧
       rewrite arithRules [const16 0 c, opLit .DIV_INT_LIT8 rd 0 (-1)] =
         [const16 0 c, opLit .DIV_INT_LIT8 rd 0 (-1)] ∧
       rewrite arithRules [const16 0 c, opLit .DIV_INT_LIT16 rd 0 (-1)] =
         [const16 0 c, opLit .DIV_INT_LIT16 rd 0 (-1)])) := by
  constructor
  · intro hlt
    refine ⟨?_, ?_, ?_, ?_⟩ <;>
    · rw [rewrite_arith_eq_map]
      simp [stepArith, tryArith, const16, opLit, move16, negInt,
        isAddLit, isMulLit, isDivLit, encodableInstr, encodable, opForms, formFits,
        Instr.regs, hlt]
  · intro hge
    have hlt : ¬ rd < 16 := not_lt.mpr hge
    refine ⟨?_, ?_, ?_, ?_⟩ <;>
    · rw [rewrite_arith_eq_map]
      simp [stepArith, tryArith, const16, opLit, move16, negInt,
        isAddLit, isMulLit, isDivLit, encodableInstr, encodable, opForms, formFits,
        Instr.regs, hlt]

/-- C2 witness: the `mult8_neg1_to_neg` vector at `Rd = 1` and the
`mult16_neg1_far` vector at `Rd = 17`. -/
theorem mulDivNeg1_to_neg_check :
    rewrite arithRules [const16 0 42, opLit .MUL_INT_LIT8 1 0 (-1)] = [const16 0 42, negInt 1 0] ∧
    rewrite arithRules [const16 0 42, opLit .MUL_INT_LIT8 17 0 (-1)] =
      [const16 0 42, opLit .MUL_INT_LIT8 17 0 (-1)] :=
  ⟨((mulDivNeg1_to_neg 1 42 (by decide)).1 (by decide)).1,
   ((mulDivNeg1_to_neg 17 42 (by decide)).2 (by decide)).1⟩

/-- C3 counterexample: on the input `[const/16 v0, #42; add-int/lit8 v1, v0, #0]`
the pass does not produce the one-instruction stream `[move/16 v1, v0]` — the
expected output asserted by `PeepholeTest.Arithmetic` (`test_1("add8_0_to_move",
op_lit(OPCODE_ADD_INT_LIT8, 0), move16)`) is the two-instruction stream that
retains the `const/16`, so the load-literal instruction is not consumed. -/
theorem const_not_consumed :
    rewrite arithRules [const16 0 42, opLit .ADD_INT_LIT8 1 0 0] ≠ [move16 1 0] := by
  decide

/-- C3 amended: the rewrite replaces only the arithmetic instruction and keeps
the load-literal instruction: the input `[const/16 v0, #42; add-int/lit8 v1,
v0, #0]` produces `[const/16 v0, #42; move/16 v1, v0]`. -/
theorem const_retained :
    rewrite arithRules [const16 0 42, opLit .ADD_INT_LIT8 1 0 0] =
      [const16 0 42, move16 1 0] := by
  decide

/-- C4: streams `[const/16 v0, #c; op vRd, v0, #L]` whose literal `L` is not an
identity trigger — not 0 for add, not 1 and not −1 for multiply, not −1 for
divide — are returned completely unchanged, for both literal widths. -/
theorem nonIdentity_literals_unchanged (rd : Nat) (c lit : Int) :
    (lit ≠ 0 →
      (rewrite arithRules [const16 0 c, opLit .ADD_INT_LIT8 rd 0 lit] =
         [const16 0 c, opLit .ADD_INT_LIT8 rd 0 lit] ∧
       rewrite arithRules [const16 0 c, opLit .ADD_INT_LIT16 rd 0 lit] =
         [const16 0 c, opLit .ADD_INT_LIT16 rd 0 lit])) ∧
    (lit ≠ 1 → lit ≠ -1 →
      (rewrite arithRules [const16 0 c, opLit .MUL_INT_LIT8 rd 0 lit] =
         [const16 0 c, opLit .MUL_INT_LIT8 rd 0 lit] ∧
       rewrite arithRules [const16 0 c, opLit .MUL_INT_LIT16 rd 0 lit] =
         [const16 0 c, opLit .MUL_INT_LIT16 rd 0 lit])) ∧
    (lit ≠ -1 →
      (rewrite arithRules [const16 0 c, opLit .DIV_INT_LIT8 rd 0 lit] =
         [const16 0 c, opLit .DIV_INT_LIT8 rd 0 lit] ∧
       rewrite arithRules [const16 0 c, opLit .DIV_INT_LIT16 rd 0 lit] =
         [const16 0 c, opLit .DIV_INT_LIT16 rd 0 lit])) := by
  refine ⟨fun h0 => ⟨?_, ?_⟩, fun h1 hm1 => ⟨?_, ?_⟩, fun hm1 => ⟨?_, ?_⟩⟩ <;>
  · rw [rewrite_arith_eq_map]
    simp_all [stepArith, tryArith, const16, opLit, move16, negInt,
      isAddLit, isMulLit, isDivLit]

/-- C7: the pass over the fixed table of rules 1–4 is idempotent — rewriting
its own output a second time changes nothing, for every input stream. -/
theorem rewrite_idempotent (s : List Instr) :
    rewrite arithRules (rewrite arithRules s) = rewrite arithRules s := by
  rw [rewrite_arith_eq_map, rewrite_arith_eq_map, List.map_map]
  exact List.map_congr_left fun i _ => stepArith_idem i

/-- C8: for every finite stream and every well-formed rule table (each
pattern spans at least one instruction), the single left-to-right pass
terminates: fuel equal to the stream length — one unit per loop iteration —
already suffices, because each iteration consumes at least one instruction. -/
theorem rewrite_terminates (rules : List Rule) (s : List Instr)
    (hwf : WellFormedTable rules = true) :
    ∃ out, rewriteLoop rules s.length s = some out :=
  Option.isSome_iff_exists.mp (rewriteLoop_total rules hwf s.length s le_rfl)

/-- C8 witness: the pass terminates on the `mult8_neg1_to_neg` input under the
arithmetic rule table. -/
theorem rewrite_terminates_check :
    ∃ out, rewriteLoop arithRules
      (List.length [const16 0 42, opLit .MUL_INT_LIT8 1 0 (-1)])
      [const16 0 42, opLit .MUL_INT_LIT8 1 0 (-1)] = some out :=
  rewrite_terminates arithRules [const16 0 42, opLit .MUL_INT_LIT8 1 0 (-1)] (by decide)

/-- C5: the boolean conversion of `JsonWrapper::get(bool)` yields the boolean
itself for JSON booleans; false for integer 0 and the case-insensitively
lowercased strings 0/false/off/no; true for integer 1 and the strings
1/true/on/yes; and an error exactly when the value is none of these (in
particular for every other integer). -/
theorem convertBool_spec (v : Json) :
    (convertBool v = .ok true ↔
      (v = .bool true ∨ v = .int 1 ∨
        ∃ s, v = .str s ∧
          (strToLower s = "1" ∨ strToLower s = "true" ∨
           strToLower s = "on" ∨ strToLower s = "yes"))) ∧
    (convertBool v = .ok false ↔
      (v = .bool false ∨ v = .int 0 ∨
        ∃ s, v = .str s ∧
          (strToLower s = "0" ∨ strToLower s = "false" ∨
           strToLower s = "off" ∨ strToLower s = "no"))) ∧
    ((∃ e, convertBool v = .error e) ↔
      ¬((∃ b, v = .bool b) ∨ v = .int 0 ∨ v = .int 1 ∨
        ∃ s, v = .str s ∧
          (strToLower s = "0" ∨ strToLower s = "false" ∨
           strToLower s = "off" ∨ strToLower s = "no" ∨
           strToLower s = "1" ∨ strToLower s = "true" ∨
           strToLower s = "on" ∨ strToLower s = "yes"))) := by
  cases v with
  | null => simp [convertBool]
  | bool b => cases b <;> simp [convertBool]
  | int n =>
    by_cases h0 : n = 0 <;> by_cases h1 : n = 1 <;>
      simp_all [convertBool]
  | str s =>
    simp only [convertBool, beq_iff_eq, Bool.or_eq_true, Json.str.injEq,
      exists_eq_left']
    generalize strToLower s = t
    split_ifs with hf ht
    · have hnt : ¬(t = "1") ∧ ¬(t = "true") ∧ ¬(t = "on") ∧ ¬(t = "yes") := by
        rcases hf with ((h | h) | h) | h <;> subst h <;>
          exact ⟨by decide, by decide, by decide, by decide⟩
      refine ⟨?_, ?_, ?_⟩ <;>
      · simp [hnt.1, hnt.2.1, hnt.2.2.1, hnt.2.2.2]
        try tauto
    · refine ⟨?_, ?_, ?_⟩ <;>
      · simp
        try tauto
    · refine ⟨?_, ?_, ?_⟩ <;>
      · simp
        try tauto
  | arr xs => simp [convertBool]
  | obj kvs => simp [convertBool]

/-- C6 counterexample: for the list-of-strings getter, a key that is present
with stored value null is not converted from the stored value — the output
tracks the supplied default (two different defaults give two different
outputs for the same stored value), so "otherwise it is set from the stored
value" fails for the container getters. -/
theorem get_family_default_cex :
    getStrVec (Json.obj [("k", Json.null)]) "k" ["a"] = .ok ["a"] ∧
    getStrVec (Json.obj [("k", Json.null)]) "k" ["b"] = .ok ["b"] ∧
    List.lookup "k" [("k", Json.null)] = some Json.null := by
  exact ⟨rfl, rfl, rfl⟩

/-- C6 amended: every getter of the `get(name, default, &out)` family yields
the default when the key is absent; when the key is present, the scalar and
string getters convert the stored value, and the list-, set- and map-valued
getters convert the stored value unless it is null, in which case they also
yield the default. -/
theorem get_family_default (kvs : List (String × Json)) (name : String)
    (di : Int) (dn : Nat) (ds : String) (dl : List String)
    (dm : List (String × List String)) :
    (List.lookup name kvs = none →
      (getInt64 (.obj kvs) name di = .ok di ∧
       getSizeT (.obj kvs) name dn = .ok dn ∧
       getString (.obj kvs) name ds = .ok ds ∧
       getStrVec (.obj kvs) name dl = .ok dl ∧
       getStrSet (.obj kvs) name dl = .ok dl ∧
       getStrMap (.obj kvs) name dm = .ok dm)) ∧
    (∀ v, List.lookup name kvs = some v →
      (getInt64 (.obj kvs) name di = v.asInt ∧
       getSizeT (.obj kvs) name dn = v.asUInt ∧
       getString (.obj kvs) name ds = v.asString ∧
       (v = Json.null →
         getStrVec (.obj kvs) name dl = .ok dl ∧
         getStrSet (.obj kvs) name dl = .ok dl ∧
         getStrMap (.obj kvs) name dm = .ok dm) ∧
       (v ≠ Json.null →
         getStrVec (.obj kvs) name dl = convStrIter v ∧
         getStrSet (.obj kvs) name dl = convStrIter v ∧
         getStrMap (.obj kvs) name dm = convStrMap v))) := by
  constructor
  · intro h
    refine ⟨?_, ?_, ?_, ?_, ?_, ?_⟩ <;>
      simp [getInt64, getSizeT, getString, getStrVec, getStrSet, getStrMap,
        Json.getMem, Json.member, h, Json.isNull, Json.asInt, Json.asUInt,
        Json.asString]
  · intro v h
    refine ⟨?_, ?_, ?_, fun hv => ?_, fun hv => ?_⟩
    · simp [getInt64, Json.getMem, h]
    · simp [getSizeT, Json.getMem, h]
    · simp [getString, Json.getMem, h]
    · subst hv
      refine ⟨?_, ?_, ?_⟩ <;>
        simp [getStrVec, getStrSet, getStrMap, Json.member, h, Json.isNull]
    · have hn := json_isNull_false v hv
      refine ⟨?_, ?_, ?_⟩ <;>
        simp [getStrVec, getStrSet, getStrMap, Json.member, h, hn]

/-- C9: when the configuration lists annotation-type names under
`no_optimizations_annotations`, a type is in the denylist exactly when some
listed name resolves through the interner; names that do not resolve are
dropped without error, so the denylist is the `filterMap` of the resolution
over the configured names. -/
theorem noOptAnnos_spec (getType : String → Option Nat) (config : Json)
    (names : List String)
    (h : config.member "no_optimizations_annotations" = Json.arr (names.map Json.str)) :
    noOptAnnos getType config = .ok (names.filterMap getType) ∧
    (∀ t, t ∈ names.filterMap getType ↔ ∃ n ∈ names, getType n = some t) := by
  constructor
  · simp [noOptAnnos, h, Json.isNull, Json.elements, exList_asString_strs, Except.map]
  · intro t
    simp [List.mem_filterMap]

/-- C9 witness: with an interner resolving only `LA;`, the configured list
`[LA;, LB;]` produces the strict-subset denylist `[7]` and no error. -/
theorem noOptAnnos_spec_check :
    noOptAnnos gResolve cfgAnnos = .ok (["LA;", "LB;"].filterMap gResolve) ∧
    (∀ t, t ∈ ["LA;", "LB;"].filterMap gResolve ↔
      ∃ n ∈ ["LA;", "LB;"], gResolve n = some t) :=
  noOptAnnos_spec gResolve cfgAnnos ["LA;", "LB;"] rfl

/-- C10: the coldstart class loader returns the empty list when the file
cannot be opened; it fails (the fatal assert) as soon as some entry is
shorter than the 6-character `.class` tail; and otherwise it replaces each
entry's last 6 characters by `;` — without checking they spell `.class` —
prepends `L`, and applies the proguard-map translation. -/
theorem load_coldstart_spec (translate : String → String) (words : List String) :
    load_coldstart_classes translate none = .ok [] ∧
    ((∃ w ∈ words, w.length < 6) →
      ∃ e, load_coldstart_classes translate (some words) = .error e) ∧
    ((∀ w ∈ words, 6 ≤ w.length) →
      load_coldstart_classes translate (some words) =
        .ok (words.map fun w =>
          translate ("L" ++ (String.mk (w.data.take (w.length - 6)) ++ ";")))) := by
  refine ⟨rfl, ?_, ?_⟩
  · rintro ⟨w, hw, hlen⟩
    exact exList_error (processColdstartEntry translate) words w hw
      "Bailing, invalid class spec" (by simp [processColdstartEntry, hlen])
  · intro h
    rw [show load_coldstart_classes translate (some words) =
      exList (processColdstartEntry translate) words from rfl]
    exact exList_ok (processColdstartEntry translate) _ words fun a ha => by
      simp [processColdstartEntry, Nat.not_lt.mpr (h a ha)]

/-- C10 witness: an unopenable file gives `[]`; the 5-character entry `x.cls`
trips the assert; and `xy.huhhh` — which does not end in `.class` — still has
its last 6 characters replaced. -/
theorem load_coldstart_spec_check :
    load_coldstart_classes id none = .ok [] ∧
    (∃ e, load_coldstart_classes id (some ["x.cls"]) = .error e) ∧
    load_coldstart_classes id (some ["com/foo/Bar.class", "xy.huhhh"]) =
      .ok ["Lcom/foo/Bar;", "Lxy;"] := by
  refine ⟨(load_coldstart_spec id []).1,
    (load_coldstart_spec id ["x.cls"]).2.1 ⟨"x.cls", by simp, by decide⟩, ?_⟩
  have := (load_coldstart_spec id ["com/foo/Bar.class", "xy.huhhh"]).2.2 (by decide)
  simpa using this

end Redex
